import Mathlib

/-!
Verification of the snapd-glib request/response engine
(`src/snapd-glib/snapd-client.c`).

The development shallowly embeds the data model and the operations of the
client: the byte buffer is a `List Char`, C strings are `List Char` /
`String`, nullable pointers are `Option`, and the GLib main-loop callbacks
become explicit state-transition functions.  External collaborators
(libsoup's header parser, the JSON decoding layer, C library routines such
as `strtoul` and `strstr`) are modelled by executable Lean functions that
follow their documented behaviour; each such definition says so in its
doc comment.
-/

/-! ## C library primitives -/

/-- Model of C `isspace` for the default locale (used by `strtoul` to skip
leading whitespace). -/
def isSpaceC (c : Char) : Bool :=
  c = ' ' || c = '\t' || c = '\n' || c = '\x0b' || c = '\x0c' || c = '\r'

/-- Hexadecimal digit value, `none` for a non-hex-digit character. -/
def hexDigitVal (c : Char) : Option Nat :=
  if '0' ≤ c ∧ c ≤ '9' then some (c.toNat - '0'.toNat)
  else if 'a' ≤ c ∧ c ≤ 'f' then some (c.toNat - 'a'.toNat + 10)
  else if 'A' ≤ c ∧ c ≤ 'F' then some (c.toNat - 'A'.toNat + 10)
  else none

/-- Decimal digit test. -/
def isDigitC (c : Char) : Bool := '0' ≤ c && c ≤ '9'

/-- Accumulate a list of hex digits into a number. -/
def hexAccum (s : List Char) : Nat :=
  s.foldl (fun acc c => 16 * acc + (hexDigitVal c).getD 0) 0

/-- Modelled from the spec: C `strtoul (s, NULL, 16)` on the buffer bytes
`s` — skip leading whitespace, skip an optional `0x`/`0X` prefix, then read
the longest run of hexadecimal digits (an empty run yields 0).  The model
reads only the bytes of `s`; sign prefixes are not modelled (no input in
this development carries one). -/
def strtoul16 (s : List Char) : Nat :=
  let t := s.dropWhile isSpaceC
  let t := match t with
    | '0' :: 'x' :: r => r
    | '0' :: 'X' :: r => r
    | r => r
  hexAccum (t.takeWhile (fun c => (hexDigitVal c).isSome))

/-- Decimal number at the front of `s` (longest digit run, empty run → 0);
used for the `Content-Length` header value. -/
def decimalPrefix (s : List Char) : Nat :=
  (s.takeWhile isDigitC).foldl (fun acc c => 10 * acc + (c.toNat - '0'.toNat)) 0

/-- Index of the first occurrence of `needle` in `hay`, or `none`.
Model of `g_strstr_len (hay, hay_length, needle)` (and of C `strstr`
restricted to the valid bytes), returning an offset instead of a pointer. -/
def firstOcc (needle : List Char) : List Char → Option Nat
  | [] => if needle.isPrefixOf [] then some 0 else none
  | c :: t =>
    if needle.isPrefixOf (c :: t) then some 0
    else (firstOcc needle t).map (· + 1)

/-! ## Accept-Language construction (`get_accept_languages`) -/

/-- Model of `g_ascii_strdown`: lower-case the ASCII letters only. -/
def g_ascii_strdown (s : List Char) : List Char :=
  s.map (fun c => if 'A' ≤ c ∧ c ≤ 'Z' then Char.ofNat (c.toNat + 32) else c)

/-- Model of `g_strdelimit (s, "_", '-')`: replace every underscore with a
hyphen. -/
def g_strdelimit_underscore (s : List Char) : List Char :=
  s.map (fun c => if c = '_' then '-' else c)

/-- Embedding of `posix_lang_to_rfc2616`: drop a language containing `.` or
`@`, drop the bare `C` locale, otherwise ASCII-lower-case it and turn `_`
into `-`. -/
def posix_lang_to_rfc2616 (language : String) : Option String :=
  if language.data.contains '.' || language.data.contains '@' then none
  else if language = "C" then none
  else some (String.mk (g_strdelimit_underscore (g_ascii_strdown language.data)))

/-- Two-decimal-digit rendering of `0 ≤ n < 100` (C `%02d`). -/
def twoDigits (n : Nat) : String :=
  if n < 10 then "0" ++ toString n else toString n

/-- Embedding of `add_quality_value`: for `0 ≤ quality < 100` append
`;q=0.NN` (two digits), or `;q=0.N` when the quality is a multiple of ten;
otherwise return the string unchanged. -/
def add_quality_value (str : String) (quality : Int) : String :=
  if 0 ≤ quality ∧ quality < 100 then
    if quality % 10 ≠ 0 then str ++ ";q=0." ++ twoDigits quality.toNat
    else str ++ ";q=0." ++ toString (quality / 10)
  else str

/-- The `for` loop of `get_accept_languages` that rewrites entry `i` to
`add_quality_value (langs[i], 100 - i * delta)`. -/
def add_quality_values (langs : List String) (delta : Nat) (i : Nat) : List String :=
  match langs with
  | [] => []
  | l :: rest => add_quality_value l ((100 : Int) - i * delta) :: add_quality_values rest delta (i + 1)

/-- Embedding of `get_accept_languages`, as a function of the ordered system
language tags returned by `g_get_language_names`. -/
def get_accept_languages (lang_names : List String) : String :=
  let langs := lang_names.filterMap posix_lang_to_rfc2616
  let delta : Nat := if langs.length < 10 then 10 else if langs.length < 20 then 5 else 1
  if langs.length = 0 then "en"
  else String.intercalate ", " (add_quality_values langs delta 0)

/-- The Accept-Language algorithm exactly as the specification words it:
filter and normalise the tags, assign descending qualities from 100 in the
length-determined step, render `;q=0.NN` with two digits trimming a trailing
zero, omit the suffix at quality 100 or more, and fall back to `en` when
empty.  Written from the spec sentence, for comparison with the embedding
above. -/
def spec_quality_suffix (str : String) (quality : Int) : String :=
  if 100 ≤ quality then str
  else if quality % 10 = 0 then str ++ ";q=0." ++ toString (quality / 10)
  else str ++ ";q=0." ++ twoDigits quality.toNat

def spec_quality_values (langs : List String) (delta : Nat) (i : Nat) : List String :=
  match langs with
  | [] => []
  | l :: rest => spec_quality_suffix l ((100 : Int) - i * delta) :: spec_quality_values rest delta (i + 1)

def spec_accept_languages (lang_names : List String) : String :=
  let langs := lang_names.filterMap posix_lang_to_rfc2616
  let delta : Nat := if langs.length < 10 then 10 else if langs.length < 20 then 5 else 1
  if langs.length = 0 then "en"
  else String.intercalate ", " (spec_quality_values langs delta 0)

/-! ## HTTP chunked bodies (`have_chunked_body`, `compress_chunks`) -/

def crlf : List Char := ['\r', '\n']

def headerTerm : List Char := ['\r', '\n', '\r', '\n']

/-- Embedding of `have_chunked_body (body, body_length)`: walk the buffer
reading a chunk header (up to the first `\r\n`), stop with `true` on a
zero-length chunk, report `false` when the chunk body (plus its trailing
`\r\n`) is not yet buffered, and otherwise advance by the chunk header and
the chunk data.  As in the source, the advance does *not* include the
chunk's trailing `\r\n`. -/
def have_chunked_body_go (fuel : Nat) (body : List Char) : Bool :=
  match fuel with
  | 0 => false
  | fuel + 1 =>
    match firstOcc crlf body with
    | none => false
    | some i =>
      let chunk_header_length := i + 2
      let chunk_length := strtoul16 body
      if chunk_length = 0 then true
      else if chunk_header_length + chunk_length + 2 > body.length then false
      else have_chunked_body_go fuel (body.drop (chunk_header_length + chunk_length))

def have_chunked_body (body : List Char) : Bool :=
  have_chunked_body_go (body.length + 1) body

/-- The loop of `compress_chunks` beyond the first chunk, accumulating the
coalesced data (the source `memmove`s each chunk's data onto the end of the
previous one) and the number of bytes consumed from the front of the body.
A missing `\r\n` makes the C `strstr` return `NULL` and the source crash;
the model stops there instead. -/
def compress_walk (fuel : Nat) (rest : List Char) (acc : List Char) (consumed : Nat) :
    List Char × Nat :=
  match fuel with
  | 0 => (acc, consumed)
  | fuel + 1 =>
    match firstOcc crlf rest with
    | none => (acc, consumed)
    | some i =>
      let chunk_length := strtoul16 rest
      let after := rest.drop (i + 2)
      if chunk_length = 0 then (acc, consumed + i + 2)
      else compress_walk fuel (after.drop (chunk_length + 2)) (acc ++ after.take chunk_length)
             (consumed + i + 2 + chunk_length + 2)

/-- Embedding of `compress_chunks (body, body_length, ...)`: returns the
coalesced chunk data (`combined_start`/`combined_length` in the source) and
`total_length`, the bytes consumed from the buffer front. -/
def compress_chunks (body : List Char) : List Char × Nat :=
  compress_walk (body.length + 1) body [] 0

/-! ## Response frame decoding (`read_cb`) -/

/-- Modelled from the spec: `soup_headers_parse_response` accepts a header
block whose status line is HTTP; the embedding only retains whether parsing
succeeds. -/
def headers_parse_ok (hdr : List Char) : Bool :=
  ("HTTP/".data).isPrefixOf hdr

inductive SoupEncoding where
  | eof
  | chunked
  | contentLength (n : Nat)
  | unrecognized
deriving DecidableEq

/-- Modelled from the spec: `soup_message_headers_get_encoding` — chunked
when a `Transfer-Encoding: chunked` header is present, unrecognized for any
other transfer encoding, the declared length when a `Content-Length` header
is present, and EOF-terminated otherwise. -/
def get_encoding (hdr : List Char) : SoupEncoding :=
  if (firstOcc ("Transfer-Encoding: chunked".data) hdr).isSome then .chunked
  else if (firstOcc ("Transfer-Encoding:".data) hdr).isSome then .unrecognized
  else
    match firstOcc ("Content-Length: ".data) hdr with
    | some i => .contentLength (decimalPrefix (hdr.drop (i + 16)))
    | none => .eof

/-- A request as the dispatcher sees it: its arrival identity, whether it is
an async (change-polling) request, and the change id once resolved. -/
structure SnapdRequest where
  rid : Nat
  isAsync : Bool
  changeId : Option String
deriving DecidableEq, Repr

/-- Embedding of `get_first_request`: the first request in arrival order
that is synchronous, or asynchronous without a change id yet. -/
def get_first_request : List SnapdRequest → Option SnapdRequest
  | [] => none
  | r :: rest =>
    if r.isAsync then
      if r.changeId.isNone then some r else get_first_request rest
    else some r

/-- Eligibility predicate matching the condition inside `get_first_request`. -/
def request_is_eligible (r : SnapdRequest) : Bool :=
  if r.isAsync then r.changeId.isNone else true

/-- Modelled from the spec: the external JSON layer
(`_snapd_json_get_async_result`) extracts the change id from an async
response envelope.  No claim proved here depends on the extracted value, so
the embedding keeps the raw body text as the identifier. -/
def async_change_id_of (body : List Char) : Option String :=
  some (String.mk body)

/-- Effect of `parse_response` on the request queue: a synchronous request
is completed and removed (`snapd_request_complete`); an asynchronous
request's initial response resolves its change id (`parse_async_response`)
and the request stays queued (a failed extraction completes and removes
it). -/
def deliver_response (q : List SnapdRequest) (r : SnapdRequest) (body : List Char) :
    List SnapdRequest :=
  if r.isAsync then
    match async_change_id_of body with
    | some cid => q.map (fun x => if x.rid = r.rid then { x with changeId := some cid } else x)
    | none => q.eraseP (fun x => x.rid = r.rid)
  else q.eraseP (fun x => x.rid = r.rid)

/-- Effect of `complete_all_requests` on the queue: synchronous requests are
completed (with the fatal error) and removed; asynchronous ones stay and are
rescheduled to poll. -/
def complete_all_queue (q : List SnapdRequest) : List SnapdRequest :=
  q.filter (fun r => r.isAsync)

inductive ReadStatus where
  | continueReading
  | removedUnexpected
  | fatalError (msg : String)
deriving DecidableEq

structure ProcessResult where
  deliveries : List (Nat × List Char)
  queue : List SnapdRequest
  buffer : List Char
  status : ReadStatus
deriving DecidableEq

/-- Embedding of the frame-processing loop of `read_cb`, run after new
bytes have been appended to the buffer: find the header terminator, match
the frame to `get_first_request`, parse the headers, wait or deliver
according to the encoding, consume the frame and continue.  `deliveries`
records `(request id, body bytes)` in delivery order; the status records
how the loop exited (`G_SOURCE_CONTINUE`, the unmatched-frame
`G_SOURCE_REMOVE`, or a connection-fatal error, which also applies
`complete_all_requests` to the queue).  Each loop iteration consumes at
least four buffered bytes, so any fuel beyond the buffer length makes the
structural recursion equal to the source loop; `processBuffer` fixes the
fuel accordingly. -/
def processBufferGo (fuel : Nat) (q : List SnapdRequest) (buf : List Char)
    (socketClosed : Bool) : ProcessResult :=
  match fuel with
  | 0 => ⟨[], q, buf, .continueReading⟩
  | fuel + 1 =>
    match firstOcc headerTerm buf with
    | none => ⟨[], q, buf, .continueReading⟩
    | some i =>
      let header_length := i + 4
      match get_first_request q with
      | none => ⟨[], q, buf, .removedUnexpected⟩
      | some req =>
        let hdr := buf.take header_length
        if headers_parse_ok hdr = false then
          ⟨[], complete_all_queue q, buf, .fatalError "Failed to parse headers from snapd"⟩
        else
          match get_encoding hdr with
          | .eof =>
            if socketClosed = false then ⟨[], q, buf, .continueReading⟩
            else
              let body := buf.drop header_length
              ⟨[(req.rid, body)], deliver_response q req body, [], .continueReading⟩
          | .chunked =>
            let rest := buf.drop header_length
            if have_chunked_body rest = false then ⟨[], q, buf, .continueReading⟩
            else
              let cb := compress_chunks rest
              let res := processBufferGo fuel (deliver_response q req cb.1)
                (buf.drop (header_length + cb.2)) socketClosed
              ⟨(req.rid, cb.1) :: res.deliveries, res.queue, res.buffer, res.status⟩
          | .contentLength cl =>
            if buf.length < header_length + cl then ⟨[], q, buf, .continueReading⟩
            else
              let body := (buf.drop header_length).take cl
              let res := processBufferGo fuel (deliver_response q req body)
                (buf.drop (header_length + cl)) socketClosed
              ⟨(req.rid, body) :: res.deliveries, res.queue, res.buffer, res.status⟩
          | .unrecognized =>
            ⟨[], complete_all_queue q, buf, .fatalError "Unable to determine header encoding"⟩

def processBuffer (q : List SnapdRequest) (buf : List Char) (socketClosed : Bool) :
    ProcessResult :=
  processBufferGo (buf.length + 1) q buf socketClosed

/-- A sequence of socket read events: each event appends its bytes to the
buffer and reruns the `read_cb` processing loop. -/
def runReads (q : List SnapdRequest) (buf : List Char) (reads : List (List Char)) :
    ProcessResult :=
  match reads with
  | [] => ⟨[], q, buf, .continueReading⟩
  | c :: rest =>
    let res := processBuffer q (buf ++ c) false
    let res2 := runReads res.queue res.buffer rest
    ⟨res.deliveries ++ res2.deliveries, res2.queue, res2.buffer, res2.status⟩

/-! ## Change snapshots and deep equality
(`times_equal`, `tasks_equal`, `changes_equal`) -/

/-- A decoded task.  `GDateTime` values are modelled as `Option Nat`
timestamps (`NULL` ↦ `none`); strings from the JSON layer are nullable. -/
structure SnapdTask where
  id : Option String
  kind : Option String
  summary : Option String
  status : Option String
  progressLabel : Option String
  progressDone : Int
  progressTotal : Int
  spawnTime : Option Nat
  readyTime : Option Nat
deriving DecidableEq

/-- A decoded change snapshot (`SnapdChange`). -/
structure SnapdChange where
  id : Option String
  kind : Option String
  summary : Option String
  status : Option String
  ready : Bool
  tasks : Option (List SnapdTask)
  spawnTime : Option Nat
  readyTime : Option Nat
deriving DecidableEq

/-- Embedding of `times_equal`: `NULL` compares equal only to `NULL`,
otherwise the timestamps are compared by value (`g_date_time_equal`). -/
def times_equal (t1 t2 : Option Nat) : Bool :=
  match t1, t2 with
  | none, none => true
  | none, some _ => false
  | some _, none => false
  | some a, some b => a = b

/-- Embedding of `tasks_equal`.  The last two conjuncts both compare the
spawn times, exactly as the source does (its second `times_equal` call also
passes `snapd_task_get_spawn_time` for both arguments); the ready times are
never compared. -/
def tasks_equal (t1 t2 : SnapdTask) : Bool :=
  t1.id = t2.id && t1.kind = t2.kind && t1.summary = t2.summary &&
  t1.status = t2.status && t1.progressLabel = t2.progressLabel &&
  t1.progressDone = t2.progressDone && t1.progressTotal = t2.progressTotal &&
  times_equal t1.spawnTime t2.spawnTime &&
  times_equal t1.spawnTime t2.spawnTime

/-- The task-list comparison inside `changes_equal`: `NULL` lists compare by
pointer, otherwise lengths and then the ordered elements pairwise. -/
def task_lists_equal (l1 l2 : Option (List SnapdTask)) : Bool :=
  match l1, l2 with
  | none, none => true
  | none, some _ => false
  | some _, none => false
  | some l1, some l2 =>
    l1.length = l2.length && (List.zip l1 l2).all (fun p => tasks_equal p.1 p.2)

/-- Embedding of `changes_equal`: `NULL` handling, the task-list walk, then
the scalar fields.  As in the source, the final two conjuncts both compare
the spawn times; the ready times are never compared. -/
def changes_equal (c1 c2 : Option SnapdChange) : Bool :=
  match c1, c2 with
  | none, none => true
  | none, some _ => false
  | some _, none => false
  | some ch1, some ch2 =>
    task_lists_equal ch1.tasks ch2.tasks &&
    ch1.id = ch2.id && ch1.kind = ch2.kind && ch1.summary = ch2.summary &&
    ch1.status = ch2.status && ch1.ready = ch2.ready &&
    times_equal ch1.spawnTime ch2.spawnTime &&
    times_equal ch1.spawnTime ch2.spawnTime

/-- The progress-delivery step of `parse_change_response`: when the new
snapshot is not `changes_equal` to the last delivered one, the callback is
invoked and the stored snapshot replaced. -/
def progress_update (parentChange : Option SnapdChange) (change : SnapdChange) :
    Bool × Option SnapdChange :=
  if changes_equal parentChange (some change) = false then (true, some change)
  else (false, parentChange)

/-- Progress deliveries over a sequence of polled snapshots: returns the
number of callback invocations and the final stored snapshot. -/
def progress_fold (parentChange : Option SnapdChange) (snaps : List SnapdChange) :
    Nat × Option SnapdChange :=
  match snaps with
  | [] => (0, parentChange)
  | s :: rest =>
    let pu := progress_update parentChange s
    let rec' := progress_fold pu.2 rest
    ((if pu.1 then 1 else 0) + rec'.1, rec'.2)

/-! ## The change-poll response (`parse_change_response`,
`find_change_request`) -/

inductive SnapdErr where
  | connectionFailed (msg : String)
  | writeFailed (msg : String)
  | readFailed (msg : String)
  | failed (msg : String)
  | cancelledErr
deriving DecidableEq

/-- Embedding of `find_change_request`: the first async request in the
queue whose change id equals the polled change id (the source `strcmp`
presumes the id is set; unresolved ids never match in the model). -/
def find_change_request (q : List SnapdRequest) (change_id : String) :
    Option SnapdRequest :=
  q.find? (fun r => r.isAsync && r.changeId = some change_id)

/-- The decoded `result` object of a change poll, as read by
`parse_change_response` through the external JSON getters: the scalar
fields, the decoded ordered task list, and the terminal `data`/`err`
members.  `none` fields model absent JSON members. -/
structure ChangeResult where
  id : Option String
  kind : Option String
  summary : Option String
  status : Option String
  ready : Bool
  tasks : List SnapdTask
  spawnTime : Option Nat
  readyTime : Option Nat
  data : Option String
  err : Option String
deriving DecidableEq

/-- The snapshot `parse_change_response` builds from a decoded result. -/
def change_of_result (r : ChangeResult) : SnapdChange :=
  { id := r.id, kind := r.kind, summary := r.summary, status := r.status,
    ready := r.ready, tasks := some r.tasks,
    spawnTime := r.spawnTime, readyTime := r.readyTime }

inductive ParentOutcome where
  | completed (error : Option SnapdErr)
  | rescheduled
deriving DecidableEq

structure ChangePollResult where
  parent : ParentOutcome
  pollError : Option SnapdErr
  progressInvoked : Bool
  newParentChange : Option SnapdChange
  capturedData : Option String
deriving DecidableEq

/-- Embedding of `parse_change_response` for the poll request on
`change_id`: a failed response/result parse (`result = none`) completes the
parent with that error; a result whose `id` differs from the polled change
id completes the parent with the read-failed error; otherwise the progress
block runs, and the ready flag decides between completion — with the
cancellation error when the token is cancelled, else the in-band `err`,
else success with the `data` payload — and rescheduling the poll.  The poll
request itself always completes with no error on these paths. -/
def parse_change_response (change_id : String) (result : Option ChangeResult)
    (hasProgressCallback : Bool) (parentChange : Option SnapdChange)
    (cancelled : Bool) : ChangePollResult :=
  match result with
  | none =>
    ⟨.completed (some (.readFailed "error parsing response")), none, false, parentChange, none⟩
  | some r =>
    if (some change_id = r.id : Bool) = false then
      ⟨.completed (some (.readFailed "Unexpected change ID returned")), none, false,
        parentChange, none⟩
    else
      let pu := if hasProgressCallback then progress_update parentChange (change_of_result r)
                else (false, parentChange)
      if r.ready then
        let error : Option SnapdErr :=
          if cancelled then some .cancelledErr
          else
            match r.err with
            | some m => some (.failed m)
            | none => none
        ⟨.completed error, none, pu.1, pu.2, r.data⟩
      else
        ⟨.rescheduled, none, pu.1, pu.2, none⟩

/-! ## Fatal connection errors (`complete_all_requests`) -/

/-- The per-request loop of `complete_all_requests`: synchronous requests
are completed with a copy of the error, asynchronous ones get their poll
timer rescheduled. -/
def complete_all_loop (requests : List SnapdRequest) (error : SnapdErr) :
    List (Nat × SnapdErr) × List Nat :=
  match requests with
  | [] => ([], [])
  | r :: rest =>
    let step := complete_all_loop rest error
    if r.isAsync then (step.1, r.rid :: step.2)
    else ((r.rid, error) :: step.1, step.2)

structure CompleteAllResult where
  completions : List (Nat × SnapdErr)
  rescheduledPolls : List Nat
  queue : List SnapdRequest
  socketClosed : Bool
deriving DecidableEq

/-- Embedding of `complete_all_requests`: close the socket, then walk the
request list completing every synchronous request with the error (which
removes it from the queue) and rescheduling every asynchronous one. -/
def complete_all_requests (q : List SnapdRequest) (error : SnapdErr) :
    CompleteAllResult :=
  let step := complete_all_loop q error
  { completions := step.1, rescheduledPolls := step.2,
    queue := q.filter (fun r => r.isAsync), socketClosed := true }

/-! ## Cancellation (`send_cancel`, `request_cancelled_cb`,
`parse_async_response`) -/

/-- Cancellation-relevant state of one async request: the resolved change
id, the sent-abort flag, whether the cancellable has fired, and the abort
actions posted so far (change id and action of each). -/
structure CancelState where
  changeId : Option String
  sentCancel : Bool
  cancelled : Bool
  posts : List (Option String × String)
deriving DecidableEq

/-- Embedding of `send_cancel`: guarded by the `sent_cancel` flag, then a
`POST /v2/changes/{change_id}` with action `"abort"` is sent. -/
def send_cancel (s : CancelState) : CancelState :=
  if s.sentCancel then s
  else { s with sentCancel := true, posts := s.posts ++ [(s.changeId, "abort")] }

/-- Embedding of the async branch of `request_cancelled_cb`: the
cancellable has fired; the abort is sent only if a change id is known. -/
def request_cancelled_cb (s : CancelState) : CancelState :=
  let s' := { s with cancelled := true }
  if s'.changeId.isSome then send_cancel s' else s'

/-- Embedding of `parse_async_response` (cancellation-relevant part): the
change id is recorded; if cancellation was already requested the abort is
sent immediately, otherwise the first poll is scheduled. -/
def parse_async_response_step (s : CancelState) (cid : String) : CancelState :=
  let s' := { s with changeId := some cid }
  if s'.cancelled then send_cancel s' else s'

inductive CancelEvent where
  | cancelSignal
  | asyncResponse (cid : String)
deriving DecidableEq

def cancel_step (s : CancelState) (ev : CancelEvent) : CancelState :=
  match ev with
  | .cancelSignal => request_cancelled_cb s
  | .asyncResponse cid => parse_async_response_step s cid

def cancel_init : CancelState := ⟨none, false, false, []⟩

def cancel_run (evs : List CancelEvent) : CancelState :=
  evs.foldl cancel_step cancel_init

/-! ## Exactly-once deferred completion (`snapd_request_respond`,
`respond_cb`) -/

/-- Completion-delivery state of one request: the responded flag, the
stored error, the idle sources attached to the owning context that have not
yet run, and the number of ready-callback invocations so far. -/
structure RespondState where
  responded : Bool
  error : Option SnapdErr
  pendingIdle : Nat
  invoked : Nat
deriving DecidableEq

/-- Embedding of `snapd_request_respond`: a second call on an
already-responded request returns immediately; the first call stores the
error and attaches an idle source to the owning main context.  The
ready callback is not invoked here. -/
def snapd_request_respond (s : RespondState) (e : Option SnapdErr) : RespondState :=
  if s.responded then s
  else { s with responded := true, error := e, pendingIdle := s.pendingIdle + 1 }

/-- Embedding of `respond_cb`: the attached idle source fires on the owning
main context, invokes the ready callback, and removes itself. -/
def respond_cb (s : RespondState) : RespondState :=
  if s.pendingIdle = 0 then s
  else { s with pendingIdle := s.pendingIdle - 1, invoked := s.invoked + 1 }

inductive RespondEvent where
  | respondCall (e : Option SnapdErr)
  | idleDispatch
deriving DecidableEq

def respond_step (s : RespondState) (ev : RespondEvent) : RespondState :=
  match ev with
  | .respondCall e => snapd_request_respond s e
  | .idleDispatch => respond_cb s

def respond_init : RespondState := ⟨false, none, 0, 0⟩

def respond_run (evs : List RespondEvent) : RespondState :=
  evs.foldl respond_step respond_init

/-! ## Spec-modelled chunked framing (for comparison with
`have_chunked_body`) -/

/-- Modelled from the spec: the encoder side of chunked transfer framing —
each chunk is its hex length, `\r\n`, the data, `\r\n`, and the sequence is
terminated by a zero-length chunk. -/
def encode_chunk (data : List Char) : List Char :=
  Nat.toDigits 16 data.length ++ crlf ++ data ++ crlf

def encode_chunks (chunks : List (List Char)) : List Char :=
  (chunks.map encode_chunk).flatten ++ ('0' :: crlf) ++ crlf

/-- Modelled from the spec: the buffer holds a complete chunk sequence —
hex-size/`\r\n`/data/`\r\n` segments, walked respecting every boundary,
ending in a zero-length chunk. -/
def spec_chunks_complete_go (fuel : Nat) (body : List Char) : Bool :=
  match fuel with
  | 0 => false
  | fuel + 1 =>
    match firstOcc crlf body with
    | none => false
    | some i =>
      let line := body.take i
      if (line ≠ [] ∧ line.all (fun c => (hexDigitVal c).isSome) : Bool) = false then false
      else
        let n := hexAccum line
        if n = 0 then true
        else if i + 2 + n + 2 ≤ body.length ∧ (body.drop (i + 2 + n)).take 2 = crlf then
          spec_chunks_complete_go fuel (body.drop (i + 2 + n + 2))
        else false

def spec_chunks_complete (body : List Char) : Bool :=
  spec_chunks_complete_go (body.length + 1) body

/-! ## Frame and stream helpers used by the FIFO-matching statements -/

/-- A well-formed Content-Length response frame `f` with header length `hl`
and body length `cl`: the first header terminator sits at the end of the
header block, the headers parse, and they declare `Content-Length: cl`. -/
def wf_cl_frame (f : List Char) (hl cl : Nat) : Prop :=
  firstOcc headerTerm f = some (hl - 4) ∧ 4 ≤ hl ∧ f.length = hl + cl ∧
  headers_parse_ok (f.take hl) = true ∧ get_encoding (f.take hl) = .contentLength cl

instance wf_cl_frame_decidable (f : List Char) (hl cl : Nat) :
    Decidable (wf_cl_frame f hl cl) := by
  unfold wf_cl_frame
  infer_instance

/-- The body bytes of a frame description `(bytes, header length, body length)`. -/
def frame_body (fr : List Char × Nat × Nat) : List Char :=
  fr.1.drop fr.2.1

/-- The byte stream of a sequence of frames. -/
def frames_stream (fs : List (List Char × Nat × Nat)) : List Char :=
  (fs.map (fun fr => fr.1)).flatten

/-- Number of `asyncResponse` events in a cancellation trace (the dispatcher
matches an async request's initial response at most once, since the request
stops being eligible once its change id resolves). -/
def count_async_responses (evs : List CancelEvent) : Nat :=
  evs.countP (fun e => match e with | .asyncResponse _ => true | _ => false)

/-! ## Theorems -/

theorem complete_all_loop_spec (q : List SnapdRequest) (error : SnapdErr) :
    complete_all_loop q error
      = ((q.filter (fun r => !r.isAsync)).map (fun r => (r.rid, error)),
         (q.filter (fun r => r.isAsync)).map (fun r => r.rid)) := by
  induction q with
  | nil => rfl
  | cons r rest ih =>
    cases h : r.isAsync <;>
      simp [complete_all_loop, ih, List.filter_cons, h]

/-- C4: on a fatal transport or framing error, every pending synchronous
request is completed with that error (none dropped), every pending async
request is never completed by the failure — it stays in the queue and its
poll is rescheduled — and the socket is closed. -/
theorem C4_fatal_error_disposition (q : List SnapdRequest) (error : SnapdErr) :
    (complete_all_requests q error).completions
        = (q.filter (fun r => !r.isAsync)).map (fun r => (r.rid, error))
    ∧ (complete_all_requests q error).queue = q.filter (fun r => r.isAsync)
    ∧ (complete_all_requests q error).rescheduledPolls
        = (q.filter (fun r => r.isAsync)).map (fun r => r.rid)
    ∧ (complete_all_requests q error).socketClosed = true := by
  refine ⟨?_, rfl, ?_, rfl⟩ <;>
    simp [complete_all_requests, complete_all_loop_spec]

theorem cancel_run_inv (evs : List CancelEvent) :
    ∀ (s : CancelState),
    s.sentCancel = (s.cancelled && s.changeId.isSome) →
    s.posts = (if s.sentCancel then [(s.changeId, "abort")] else []) →
    count_async_responses evs + (if s.changeId.isSome then 1 else 0) ≤ 1 →
    (evs.foldl cancel_step s).sentCancel
        = ((evs.foldl cancel_step s).cancelled
            && (evs.foldl cancel_step s).changeId.isSome)
    ∧ (evs.foldl cancel_step s).posts
        = (if (evs.foldl cancel_step s).sentCancel
           then [((evs.foldl cancel_step s).changeId, "abort")] else []) := by
  induction evs with
  | nil => intro s h1 h2 _; exact ⟨h1, h2⟩
  | cons ev rest ih =>
    intro s h1 h2 hcount
    cases ev with
    | cancelSignal =>
      refine ih _ ?_ ?_ ?_
      · cases hid : s.changeId <;>
          simp_all [cancel_step, request_cancelled_cb, send_cancel]
      · cases hid : s.changeId <;>
          simp_all [cancel_step, request_cancelled_cb, send_cancel]
      · have : (request_cancelled_cb s).changeId = s.changeId := by
          cases hid : s.changeId <;>
            simp_all [request_cancelled_cb, send_cancel]
        simp only [cancel_step, this]
        simp only [count_async_responses, List.countP_cons] at hcount ⊢
        omega
    | asyncResponse cid =>
      have hcnt : count_async_responses (CancelEvent.asyncResponse cid :: rest)
          = count_async_responses rest + 1 := by
        simp [count_async_responses, List.countP_cons]
      rw [hcnt] at hcount
      have hid : s.changeId = none := by
        by_contra hne
        rw [Option.isSome_iff_ne_none.mpr hne] at hcount
        simp at hcount <;> omega
      have hsc : s.sentCancel = false := by simp [h1, hid]
      refine ih _ ?_ ?_ ?_
      · cases hcl : s.cancelled <;>
          simp_all [cancel_step, parse_async_response_step, send_cancel]
      · cases hcl : s.cancelled <;>
          simp_all [cancel_step, parse_async_response_step, send_cancel]
      · have hstep : (cancel_step s (CancelEvent.asyncResponse cid)).changeId = some cid := by
          cases hcl : s.cancelled <;>
            simp_all [cancel_step, parse_async_response_step, send_cancel]
        rw [hstep, hid] at *
        simp at hcount ⊢ <;> omega

/-- C5: an async request's cancellation sends no abort action before a
change id is known; once a change id is known, no matter how often
cancellation is signalled, exactly one abort action — a POST on that change
id with action `"abort"` — is ever sent, enforced by the sent-abort flag. -/
theorem C5_single_abort (evs : List CancelEvent)
    (hsingle : count_async_responses evs ≤ 1) :
    (cancel_run evs).posts
      = (if (cancel_run evs).cancelled ∧ (cancel_run evs).changeId.isSome
         then [((cancel_run evs).changeId, "abort")] else [])
  ∧ (cancel_run evs).sentCancel
      = ((cancel_run evs).cancelled && (cancel_run evs).changeId.isSome) := by
  have h := cancel_run_inv evs cancel_init rfl rfl
    (by simpa [cancel_init] using hsingle)
  unfold cancel_run
  refine ⟨?_, h.1⟩
  rw [h.2, h.1]
  simp [Bool.and_eq_true]

theorem C5_single_abort_witness :
    count_async_responses
        [CancelEvent.cancelSignal, CancelEvent.asyncResponse "7",
         CancelEvent.cancelSignal] ≤ 1
  ∧ (cancel_run
        [CancelEvent.cancelSignal, CancelEvent.asyncResponse "7",
         CancelEvent.cancelSignal]).posts = [(some "7", "abort")] := by
  refine ⟨by decide, ?_⟩
  have h := (C5_single_abort
    [CancelEvent.cancelSignal, CancelEvent.asyncResponse "7",
     CancelEvent.cancelSignal] (by decide)).1
  exact h.trans (by decide)

theorem respond_run_inv (evs : List RespondEvent) :
    ∀ (s : RespondState),
    s.invoked + s.pendingIdle = (if s.responded then 1 else 0) →
    (evs.foldl respond_step s).invoked + (evs.foldl respond_step s).pendingIdle
      = (if (evs.foldl respond_step s).responded then 1 else 0) := by
  induction evs with
  | nil => intro s h; exact h
  | cons ev rest ih =>
    intro s h
    refine ih _ ?_
    cases ev with
    | respondCall e =>
      by_cases hr : s.responded <;>
        simp_all [respond_step, snapd_request_respond] <;> omega
    | idleDispatch =>
      by_cases hp : s.pendingIdle = 0 <;>
        simp_all [respond_step, respond_cb] <;> omega

/-- C6: a request's completion callback is delivered exactly once — a
second completion attempt has no effect — and `snapd_request_respond` never
invokes the callback synchronously: it only attaches a deferred idle source
to the owning main context, whose dispatch performs the single invocation. -/
theorem C6_exactly_once_deferred :
    (∀ evs : List RespondEvent,
       (respond_run evs).invoked + (respond_run evs).pendingIdle
         = (if (respond_run evs).responded then 1 else 0))
  ∧ (∀ (s : RespondState) (e e' : Option SnapdErr),
       snapd_request_respond (snapd_request_respond s e) e' = snapd_request_respond s e)
  ∧ (∀ (s : RespondState) (e : Option SnapdErr),
       (snapd_request_respond s e).invoked = s.invoked) := by
  refine ⟨fun evs => respond_run_inv evs respond_init rfl, ?_, ?_⟩
  · intro s e e'
    by_cases hr : s.responded <;> simp [snapd_request_respond, hr]
  · intro s e
    by_cases hr : s.responded <;> simp [snapd_request_respond, hr]

/-- C3: the code contradicts the claimed deep comparison — `changes_equal`
(and `tasks_equal`) compare the spawn time twice and never the ready time,
so two snapshots that differ only in the change's ready timestamp compare
equal and the second poll does not invoke the progress callback, although
the claim requires an invocation for a snapshot that differs in the ready
timestamps. -/
theorem C3_ready_time_not_compared :
    changes_equal
        (some ⟨some "8", some "install", some "Install snap", some "Doing", false,
               some [⟨some "t1", some "download", some "Download", some "Doing",
                      some "1MB/10MB", 1, 10, some 100, some 200⟩],
               some 100, some 300⟩)
        (some ⟨some "8", some "install", some "Install snap", some "Doing", false,
               some [⟨some "t1", some "download", some "Download", some "Doing",
                      some "1MB/10MB", 1, 10, some 100, some 200⟩],
               some 100, some 999⟩) = true
  ∧ (⟨some "8", some "install", some "Install snap", some "Doing", false,
       some [⟨some "t1", some "download", some "Download", some "Doing",
              some "1MB/10MB", 1, 10, some 100, some 200⟩],
       some 100, some 300⟩ : SnapdChange)
      ≠ ⟨some "8", some "install", some "Install snap", some "Doing", false,
          some [⟨some "t1", some "download", some "Download", some "Doing",
                 some "1MB/10MB", 1, 10, some 100, some 200⟩],
          some 100, some 999⟩
  ∧ progress_fold none
      [⟨some "8", some "install", some "Install snap", some "Doing", false,
         some [⟨some "t1", some "download", some "Download", some "Doing",
                some "1MB/10MB", 1, 10, some 100, some 200⟩],
         some 100, some 300⟩,
       ⟨some "8", some "install", some "Install snap", some "Doing", false,
         some [⟨some "t1", some "download", some "Download", some "Doing",
                some "1MB/10MB", 1, 10, some 100, some 200⟩],
         some 100, some 999⟩]
      = (1, some ⟨some "8", some "install", some "Install snap", some "Doing", false,
                   some [⟨some "t1", some "download", some "Download", some "Doing",
                          some "1MB/10MB", 1, 10, some 100, some 200⟩],
                   some 100, some 300⟩) := by
  refine ⟨by decide, by decide, by decide⟩

/-- C7: when a polled change reports ready, the original async request is
completed — with the cancellation error when the cancellation token is in
the cancelled state, else with the daemon's in-band `err` string, else
successfully with the `data` payload captured — the poll request completes
without error, and no further poll is scheduled. -/
theorem C7_ready_completion (change_id : String) (r : ChangeResult)
    (hasCb : Bool) (pc : Option SnapdChange) (cancelled : Bool)
    (hready : r.ready = true) (hid : r.id = some change_id) :
    (parse_change_response change_id (some r) hasCb pc cancelled).parent
      = .completed (if cancelled then some .cancelledErr
                    else match r.err with
                         | some m => some (.failed m)
                         | none => none)
  ∧ (parse_change_response change_id (some r) hasCb pc cancelled).capturedData = r.data
  ∧ (parse_change_response change_id (some r) hasCb pc cancelled).pollError = none := by
  simp [parse_change_response, hid, hready]

theorem C7_ready_completion_witness :
    (⟨some "42", some "install", none, none, true, [], none, none,
       some "payload", some "boom"⟩ : ChangeResult).ready = true
  ∧ (parse_change_response "42"
        (some ⟨some "42", some "install", none, none, true, [], none, none,
               some "payload", some "boom"⟩) false none false).parent
      = .completed (some (.failed "boom"))
  ∧ (parse_change_response "42"
        (some ⟨some "42", some "install", none, none, true, [], none, none,
               some "payload", some "boom"⟩) false none false).capturedData
      = some "payload" := by
  have h := C7_ready_completion "42"
    ⟨some "42", some "install", none, none, true, [], none, none,
      some "payload", some "boom"⟩ false none false rfl rfl
  exact ⟨rfl, h.1, h.2.1⟩

/-- C10: a poll response whose decoded result `id` differs from the change
id the poll was issued for completes the outer async request with the
read-failed error "Unexpected change ID returned", schedules no further
poll for it, and completes the poll request itself without error. -/
theorem C10_unexpected_change_id (change_id : String) (r : ChangeResult)
    (hasCb : Bool) (pc : Option SnapdChange) (cancelled : Bool)
    (hdiff : r.id ≠ some change_id) :
    parse_change_response change_id (some r) hasCb pc cancelled
      = ⟨.completed (some (.readFailed "Unexpected change ID returned")),
          none, false, pc, none⟩ := by
  have hcond : (some change_id = r.id : Bool) = false := by
    simp [eq_comm]
    exact hdiff
  simp [parse_change_response, hcond]

theorem C10_unexpected_change_id_witness :
    (⟨some "7", none, none, none, true, [], none, none, none, none⟩
        : ChangeResult).id ≠ some "42"
  ∧ parse_change_response "42"
        (some ⟨some "7", none, none, none, true, [], none, none, none, none⟩)
        true none false
      = ⟨.completed (some (.readFailed "Unexpected change ID returned")),
          none, false, none, none⟩ := by
  refine ⟨by decide, ?_⟩
  exact C10_unexpected_change_id "42"
    ⟨some "7", none, none, none, true, [], none, none, none, none⟩
    true none false (by decide)

/-- C2: the code contradicts the claim (and its own stated purpose of
checking that all chunks are present).  `have_chunked_body` advances by the
chunk header and data but not the chunk's trailing `\r\n`, so its walk is
misaligned from the second chunk on.  For the payload `AB` chunked as
`A`,`B` — the byte-exact sequence produced by the spec's chunk framing and
accepted by the spec's completeness walk — `have_chunked_body` reads the
stray `B` as a chunk size of 11 and reports the fully buffered sequence
incomplete, so the decoder never yields a body; the same payload framed
with `Content-Length` is delivered byte-identically. -/
theorem C2_chunk_decoder_misaligned :
    encode_chunks [['A'], ['B']] = "1\r\nA\r\n1\r\nB\r\n0\r\n\r\n".data
  ∧ spec_chunks_complete ("1\r\nA\r\n1\r\nB\r\n0\r\n\r\n".data) = true
  ∧ have_chunked_body ("1\r\nA\r\n1\r\nB\r\n0\r\n\r\n".data) = false
  ∧ processBuffer [⟨0, false, none⟩]
        (("HTTP/1.1 200 OK\r\nTransfer-Encoding: chunked\r\n\r\n"
            ++ "1\r\nA\r\n1\r\nB\r\n0\r\n\r\n").data) false
      = ⟨[], [⟨0, false, none⟩],
          ("HTTP/1.1 200 OK\r\nTransfer-Encoding: chunked\r\n\r\n"
              ++ "1\r\nA\r\n1\r\nB\r\n0\r\n\r\n").data,
          .continueReading⟩
  ∧ processBuffer [⟨0, false, none⟩]
        ("HTTP/1.1 200 OK\r\nContent-Length: 2\r\n\r\nAB".data) false
      = ⟨[(0, "AB".data)], [], [], .continueReading⟩ := by
  exact ⟨by decide, by decide, by decide, by decide, by decide⟩

/-- C9 (counterexample): with one complete Content-Length frame buffered
and only an async request holding a resolved change id in the queue (no
eligible request), `read_cb` warns and returns `G_SOURCE_REMOVE`: the frame
is *not* consumed from the buffer and the processing loop does not continue
to any subsequent frame — and, as the second conjunct shows, the very same
unconsumed frame is later matched to the next eligible request instead of
having been dropped. -/
theorem C9_unmatched_frame_counterexample :
    processBuffer [⟨5, true, some "7"⟩]
        ("HTTP/1.1 200 OK\r\nContent-Length: 2\r\n\r\nAB".data) false
      = ⟨[], [⟨5, true, some "7"⟩],
          "HTTP/1.1 200 OK\r\nContent-Length: 2\r\n\r\nAB".data,
          .removedUnexpected⟩
  ∧ processBuffer [⟨6, false, none⟩]
        ("HTTP/1.1 200 OK\r\nContent-Length: 2\r\n\r\nAB".data) false
      = ⟨[(6, "AB".data)], [], [], .continueReading⟩ :=
  ⟨by decide, by decide⟩

/-- C9 (amended): if a complete frame heads the buffer while no eligible
request exists, a diagnostic is emitted, no pending request is completed or
failed, and the read watch is removed with the frame left unconsumed in the
buffer — processing does not continue within this read event, and the frame
remains to be matched by a later eligible request. -/
theorem C9_unmatched_frame_left_buffered (q : List SnapdRequest) (buf : List Char)
    (i : Nat) (hterm : firstOcc headerTerm buf = some i)
    (hnone : get_first_request q = none) :
    processBuffer q buf false = ⟨[], q, buf, .removedUnexpected⟩ := by
  simp [processBuffer, processBufferGo, hterm, hnone]

theorem C9_unmatched_frame_left_buffered_witness :
    firstOcc headerTerm ("HTTP/1.1 200 OK\r\nContent-Length: 5\r\n\r\nhello".data)
      = some 34
  ∧ get_first_request [⟨9, true, some "11"⟩] = none
  ∧ processBuffer [⟨9, true, some "11"⟩]
        ("HTTP/1.1 200 OK\r\nContent-Length: 5\r\n\r\nhello".data) false
      = ⟨[], [⟨9, true, some "11"⟩],
          "HTTP/1.1 200 OK\r\nContent-Length: 5\r\n\r\nhello".data,
          .removedUnexpected⟩ :=
  ⟨by decide, by decide,
    C9_unmatched_frame_left_buffered [⟨9, true, some "11"⟩]
      ("HTTP/1.1 200 OK\r\nContent-Length: 5\r\n\r\nhello".data) 34
      (by decide) (by decide)⟩

theorem add_quality_values_spec (langs : List String) (delta : Nat) :
    ∀ i : Nat, (∀ k : Nat, k < langs.length → (1 : Int) ≤ 100 - (i + k) * delta) →
    add_quality_values langs delta i = spec_quality_values langs delta i := by
  induction langs with
  | nil => intro i _; rfl
  | cons l rest ih =>
    intro i hk
    have h0 : (1 : Int) ≤ 100 - i * delta := by
      have h := hk 0 (by simp)
      simpa using h
    have hle : ((100 : Int) - i * delta) ≤ 100 := by
      have hnn : (0 : Int) ≤ (i : Int) * delta := by positivity
      omega
    unfold add_quality_values spec_quality_values
    congr 1
    · unfold add_quality_value spec_quality_suffix
      have hq0 : (0 : Int) ≤ (i : Int) * delta := by positivity
      by_cases h100 : ((i : Int) * delta) = 0
      · rw [h100]
        norm_num
      · have hyes : ((0 : Int) ≤ 100 - i * delta ∧ (100 : Int) - i * delta < 100) := by
          omega
        rw [if_pos hyes, if_neg (by omega : ¬ (100 : Int) ≤ 100 - i * delta)]
        by_cases hmod : ((100 : Int) - i * delta) % 10 = 0
        · simp [hmod]
        · simp [hmod]
    · refine ih (i + 1) ?_
      intro k hk'
      have h := hk (k + 1) (by simpa using Nat.succ_lt_succ hk')
      have e : ((i : Int) + (k + 1 : Nat)) * delta = (((i + 1 : Nat) : Int) + k) * delta := by
        push_cast; ring
      rw [e] at h
      exact h

/-- C8: the Accept-Language construction matches the algorithm the claim
states (filter, normalise, descending qualities from 100 in the
length-determined step, `;q=0.NN` with a trimmed trailing zero, no suffix
at quality 100, `en` fallback) on every tag list whose filtered length
keeps all qualities in the range the claim's formatting describes, and the
three-tag example produces exactly the claimed header value. -/
theorem C8_accept_languages :
    (∀ lang_names : List String,
      (lang_names.filterMap posix_lang_to_rfc2616).length ≤ 100 →
      get_accept_languages lang_names = spec_accept_languages lang_names)
  ∧ get_accept_languages ["en", "fr", "de"] = "en, fr;q=0.9, de;q=0.8" := by
  constructor
  · intro lang_names hlen
    unfold get_accept_languages spec_accept_languages
    by_cases hz : (lang_names.filterMap posix_lang_to_rfc2616).length = 0
    · simp [hz]
    · simp only [if_neg hz]
      congr 1
      apply add_quality_values_spec
      intro k hk
      by_cases h10 : (lang_names.filterMap posix_lang_to_rfc2616).length < 10
      · simp only [if_pos h10]
        omega
      · by_cases h20 : (lang_names.filterMap posix_lang_to_rfc2616).length < 20
        · simp only [if_neg h10, if_pos h20]
          omega
        · simp only [if_neg h10, if_neg h20]
          omega
  · decide

theorem C8_accept_languages_witness :
    (["en", "fr", "de"].filterMap posix_lang_to_rfc2616).length ≤ 100
  ∧ get_accept_languages ["en", "fr", "de"]
      = spec_accept_languages ["en", "fr", "de"] :=
  ⟨by decide, C8_accept_languages.1 ["en", "fr", "de"] (by decide)⟩

theorem prefix_take_eq {p f : List α} (hp : p <+: f) {m : Nat} (hm : m ≤ p.length) :
    p.take m = f.take m := by
  obtain ⟨u, rfl⟩ := hp
  rw [List.take_append_of_le_length hm]

theorem firstOcc_fits {n : List Char} :
    ∀ {h : List Char} {i : Nat}, firstOcc n h = some i → i + n.length ≤ h.length := by
  intro h
  induction h with
  | nil =>
    intro i hi
    unfold firstOcc at hi
    split at hi
    · rename_i hp
      have hn : n = [] := List.prefix_nil.mp (List.isPrefixOf_iff_prefix.mp hp)
      cases hi
      simp [hn]
    · exact Option.noConfusion hi
  | cons c t ih =>
    intro i hi
    unfold firstOcc at hi
    split at hi
    · rename_i hp
      cases hi
      simpa using (List.isPrefixOf_iff_prefix.mp hp).length_le
    · cases hfo : firstOcc n t with
      | none => rw [hfo] at hi; exact absurd hi (by simp)
      | some j =>
        rw [hfo] at hi
        simp only [Option.map_some'] at hi
        cases hi
        have := ih hfo
        simp only [List.length_cons]
        omega

theorem firstOcc_append {n : List Char} (hn : n ≠ []) :
    ∀ {h e : List Char} {i : Nat},
    firstOcc n h = some i → firstOcc n (h ++ e) = some i := by
  intro h
  induction h with
  | nil =>
    intro e i hi
    unfold firstOcc at hi
    split at hi
    · rename_i hp
      exact absurd (List.prefix_nil.mp (List.isPrefixOf_iff_prefix.mp hp)) hn
    · exact Option.noConfusion hi
  | cons c t ih =>
    intro e i hi
    unfold firstOcc at hi
    rw [List.cons_append]
    unfold firstOcc
    split at hi
    · rename_i hp
      cases hi
      have hpre : n <+: c :: (t ++ e) := by
        refine (List.isPrefixOf_iff_prefix.mp hp).trans ?_
        exact (c :: t).prefix_append e
      rw [if_pos (List.isPrefixOf_iff_prefix.mpr hpre)]
    · rename_i hp
      cases hfo : firstOcc n t with
      | none => rw [hfo] at hi; exact absurd hi (by simp)
      | some j =>
        rw [hfo] at hi
        simp only [Option.map_some'] at hi
        cases hi
        have hfits := firstOcc_fits hfo
        have hnp : ¬ (n.isPrefixOf (c :: (t ++ e)) = true) := by
          intro hp2
          have hpre2 := List.isPrefixOf_iff_prefix.mp hp2
          have hlen2 : n.length ≤ (c :: t).length := by
            simp only [List.length_cons]; omega
          have hpc : n <+: c :: t :=
            List.prefix_iff_eq_take.mpr
              ((List.prefix_iff_eq_take.mp hpre2).trans
                (prefix_take_eq ((c :: t).prefix_append e) hlen2).symm)
          exact hp (List.isPrefixOf_iff_prefix.mpr hpc)
        rw [if_neg hnp, ih hfo]
        rfl

theorem firstOcc_take_none {n : List Char} :
    ∀ {p f : List Char} {k : Nat},
    firstOcc n f = some k → p <+: f → p.length < k + n.length →
    firstOcc n p = none := by
  intro p
  induction p with
  | nil =>
    intro f k hk hp hlen
    unfold firstOcc
    split
    · rename_i hpp
      exfalso
      have hnil : n = [] := List.prefix_nil.mp (List.isPrefixOf_iff_prefix.mp hpp)
      subst hnil
      have h0 : firstOcc ([] : List Char) f = some 0 := by
        cases f <;> simp [firstOcc, List.isPrefixOf_iff_prefix]
      rw [h0] at hk
      cases hk
      simp at hlen
    · rfl
  | cons a p' ih =>
    intro f k hk hp hlen
    obtain ⟨f', rfl⟩ : ∃ f', f = a :: f' := by
      cases f with
      | nil => simpa using List.prefix_nil.mp hp
      | cons b f' =>
        obtain ⟨hab, -⟩ := List.cons_prefix_cons.mp hp
        exact ⟨f', by rw [hab]⟩
    have hp' : p' <+: f' := (List.cons_prefix_cons.mp hp).2
    unfold firstOcc at hk ⊢
    split at hk
    · rename_i hpp
      cases hk
      rw [if_neg ?hno]
      case hno =>
        intro hp2
        have hle := (List.isPrefixOf_iff_prefix.mp hp2).length_le
        simp only [List.length_cons] at hle hlen
        omega
      cases hfo : firstOcc n p' with
      | none => rfl
      | some j =>
        exfalso
        have := firstOcc_fits hfo
        simp only [List.length_cons] at hlen
        omega
    · rename_i hpp
      cases hfo : firstOcc n f' with
      | none => rw [hfo] at hk; exact absurd hk (by simp)
      | some k' =>
        rw [hfo] at hk
        simp only [Option.map_some'] at hk
        cases hk
        rw [if_neg ?hno2]
        case hno2 =>
          intro hp2
          have hpre2 := List.isPrefixOf_iff_prefix.mp hp2
          have hlen2 : n.length ≤ (a :: p').length := hpre2.length_le
          have hca : n <+: a :: f' :=
            List.prefix_iff_eq_take.mpr
              ((List.prefix_iff_eq_take.mp hpre2).trans (prefix_take_eq hp hlen2))
          exact hpp (List.isPrefixOf_iff_prefix.mpr hca)
        have hrec : firstOcc n p' = none := by
          refine ih hfo hp' ?_
          simp only [List.length_cons] at hlen
          omega
        rw [hrec]
        rfl

theorem firstOcc_take_some {n : List Char} :
    ∀ {p f : List Char} {k : Nat},
    firstOcc n f = some k → p <+: f → k + n.length ≤ p.length →
    firstOcc n p = some k := by
  intro p
  induction p with
  | nil =>
    intro f k hk hp hlen
    simp only [List.length_nil] at hlen
    have hk0 : k = 0 := by omega
    have hnil : n = [] := List.length_eq_zero.mp (by omega)
    subst hk0
    subst hnil
    simp [firstOcc, List.isPrefixOf_iff_prefix]
  | cons a p' ih =>
    intro f k hk hp hlen
    obtain ⟨f', rfl⟩ : ∃ f', f = a :: f' := by
      cases f with
      | nil => simpa using List.prefix_nil.mp hp
      | cons b f' =>
        obtain ⟨hab, -⟩ := List.cons_prefix_cons.mp hp
        exact ⟨f', by rw [hab]⟩
    have hp' : p' <+: f' := (List.cons_prefix_cons.mp hp).2
    unfold firstOcc at hk ⊢
    split at hk
    · rename_i hpp
      cases hk
      have hpre := List.isPrefixOf_iff_prefix.mp hpp
      have hlen2 : n.length ≤ (a :: p').length := by omega
      have hpc : n <+: a :: p' :=
        List.prefix_iff_eq_take.mpr
          ((List.prefix_iff_eq_take.mp hpre).trans (prefix_take_eq hp hlen2).symm)
      rw [if_pos (List.isPrefixOf_iff_prefix.mpr hpc)]
    · rename_i hpp
      cases hfo : firstOcc n f' with
      | none => rw [hfo] at hk; exact absurd hk (by simp)
      | some k' =>
        rw [hfo] at hk
        simp only [Option.map_some'] at hk
        cases hk
        rw [if_neg ?hno3]
        case hno3 =>
          intro hp2
          have hpre2 := List.isPrefixOf_iff_prefix.mp hp2
          have hlen2 : n.length ≤ (a :: p').length := hpre2.length_le
          have hca : n <+: a :: f' :=
            List.prefix_iff_eq_take.mpr
              ((List.prefix_iff_eq_take.mp hpre2).trans (prefix_take_eq hp hlen2))
          exact hpp (List.isPrefixOf_iff_prefix.mpr hca)
        have hrec : firstOcc n p' = some k' := by
          refine ih hfo hp' ?_
          simp only [List.length_cons] at hlen
          omega
        rw [hrec]
        rfl

theorem headerTerm_length : headerTerm.length = 4 := rfl

theorem processBufferGo_fuel :
    ∀ (fuel : Nat) {fuel' : Nat} (q : List SnapdRequest) (buf : List Char) (sc : Bool),
    buf.length < fuel → buf.length < fuel' →
    processBufferGo fuel q buf sc = processBufferGo fuel' q buf sc := by
  intro fuel
  induction fuel with
  | zero => intro fuel' q buf sc h _; exact absurd h (by omega)
  | succ m ih =>
    intro fuel' q buf sc h h'
    cases fuel' with
    | zero => exact absurd h' (by omega)
    | succ m' =>
      unfold processBufferGo
      cases hterm : firstOcc headerTerm buf with
      | none => simp [hterm]
      | some i =>
        have hfits : i + 4 ≤ buf.length := by
          have := firstOcc_fits hterm
          rwa [headerTerm_length] at this
        simp only [hterm]
        cases hreq : get_first_request q with
        | none => simp
        | some req =>
          simp only
          by_cases hok : headers_parse_ok (buf.take (i + 4)) = false
          · simp [hok]
          · rw [if_neg hok, if_neg hok]
            cases henc : get_encoding (buf.take (i + 4)) with
            | eof => simp
            | unrecognized => simp
            | chunked =>
              simp only
              by_cases hcb : have_chunked_body (buf.drop (i + 4)) = false
              · simp [hcb]
              · rw [if_neg hcb, if_neg hcb]
                have hrec := @ih m'
                  (deliver_response q req (compress_chunks (buf.drop (i + 4))).1)
                  (buf.drop (i + 4 + (compress_chunks (buf.drop (i + 4))).2)) sc
                  (by simp only [List.length_drop]; omega)
                  (by simp only [List.length_drop]; omega)
                rw [hrec]
            | contentLength cl =>
              simp only
              by_cases hlt : buf.length < i + 4 + cl
              · simp [hlt]
              · rw [if_neg hlt, if_neg hlt]
                have hrec := @ih m'
                  (deliver_response q req ((buf.drop (i + 4)).take cl))
                  (buf.drop (i + 4 + cl)) sc
                  (by simp only [List.length_drop]; omega)
                  (by simp only [List.length_drop]; omega)
                rw [hrec]

theorem process_stuck_prefix (q : List SnapdRequest) (p f : List Char) (hl cl : Nat)
    (hwf : wf_cl_frame f hl cl) (hp : p <+: f) (hlen : p.length < f.length)
    (hq : (get_first_request q).isSome = true) :
    processBuffer q p false = ⟨[], q, p, .continueReading⟩ := by
  obtain ⟨hterm, hhl, hflen, hok, henc⟩ := hwf
  unfold processBuffer processBufferGo
  by_cases hshort : p.length < hl
  · have hnone : firstOcc headerTerm p = none := by
      refine firstOcc_take_none hterm hp ?_
      rw [headerTerm_length]
      omega
    simp [hnone]
  · push_neg at hshort
    have hsome : firstOcc headerTerm p = some (hl - 4) := by
      refine firstOcc_take_some hterm hp ?_
      rw [headerTerm_length]
      omega
    obtain ⟨req, hreq⟩ := Option.isSome_iff_exists.mp hq
    have hhl4 : hl - 4 + 4 = hl := by omega
    have htake : p.take (hl - 4 + 4) = f.take hl := by
      rw [hhl4]
      exact prefix_take_eq hp hshort
    have hplen : p.length < hl - 4 + 4 + cl := by omega
    simp only [hsome, hreq, htake, hok, henc]
    simp [hplen]

theorem process_consume (q' : List SnapdRequest) (r : SnapdRequest) (f rest : List Char)
    (hl cl : Nat) (hwf : wf_cl_frame f hl cl) (hsync : r.isAsync = false) :
    processBuffer (r :: q') (f ++ rest) false
      = ⟨(r.rid, f.drop hl) :: (processBuffer q' rest false).deliveries,
         (processBuffer q' rest false).queue,
         (processBuffer q' rest false).buffer,
         (processBuffer q' rest false).status⟩ := by
  obtain ⟨hterm, hhl, hflen, hok, henc⟩ := hwf
  have hterm' : firstOcc headerTerm (f ++ rest) = some (hl - 4) :=
    firstOcc_append (by simp [headerTerm]) hterm
  have hreq : get_first_request (r :: q') = some r := by
    simp [get_first_request, hsync]
  have hhl4 : hl - 4 + 4 = hl := by omega
  have hlenf : hl ≤ f.length := by omega
  have htake : (f ++ rest).take (hl - 4 + 4) = f.take hl := by
    rw [hhl4]
    exact List.take_append_of_le_length hlenf
  have hdlen : (f.drop hl).length = cl := by
    simp only [List.length_drop, hflen]
    omega
  have hbody : ((f ++ rest).drop (hl - 4 + 4)).take cl = f.drop hl := by
    rw [hhl4, List.drop_append_of_le_length hlenf,
        List.take_append_of_le_length (by omega), ← hdlen, List.take_length]
  have hnext : (f ++ rest).drop (hl - 4 + 4 + cl) = rest := by
    rw [hhl4, show hl + cl = f.length from hflen.symm]
    exact List.drop_left f rest
  have hnotlt : ¬ ((f ++ rest).length < hl - 4 + 4 + cl) := by
    rw [hhl4]
    simp only [List.length_append]
    omega
  have hdeliver : deliver_response (r :: q') r (f.drop hl) = q' := by
    simp [deliver_response, hsync, List.eraseP_cons_of_pos]
  set X := processBufferGo ((f ++ rest).length) q' rest false with hX
  have hstep : processBufferGo ((f ++ rest).length + 1) (r :: q') (f ++ rest) false
      = ⟨(r.rid, f.drop hl) :: X.deliveries, X.queue, X.buffer, X.status⟩ := by
    rw [processBufferGo.eq_def]
    dsimp only
    simp only [hterm', hreq, htake, hok, henc, Bool.true_eq_false, if_false]
    rw [if_neg hnotlt]
    simp only [hbody, hnext, hdeliver]
  have hfuel : X = processBufferGo (rest.length + 1) q' rest false := by
    rw [hX]
    refine processBufferGo_fuel _ q' rest false ?_ ?_
    · simp only [List.length_append]
      omega
    · omega
  calc processBuffer (r :: q') (f ++ rest) false
      = processBufferGo ((f ++ rest).length + 1) (r :: q') (f ++ rest) false := rfl
    _ = ⟨(r.rid, f.drop hl) :: X.deliveries, X.queue, X.buffer, X.status⟩ := hstep
    _ = ⟨(r.rid, f.drop hl) :: (processBuffer q' rest false).deliveries,
         (processBuffer q' rest false).queue,
         (processBuffer q' rest false).buffer,
         (processBuffer q' rest false).status⟩ := by rw [hfuel]; rfl

theorem process_prefix :
    ∀ (fs : List (List Char × Nat × Nat)) (rs : List SnapdRequest) (p : List Char),
    rs.length = fs.length →
    (∀ r ∈ rs, r.isAsync = false) →
    (∀ fr ∈ fs, wf_cl_frame fr.1 fr.2.1 fr.2.2) →
    p <+: frames_stream fs →
    ∃ k, k ≤ fs.length
      ∧ frames_stream (fs.take k) <+: p
      ∧ processBuffer rs p false
          = ⟨List.zip ((rs.take k).map (fun r => r.rid)) ((fs.take k).map frame_body),
             rs.drop k, p.drop (frames_stream (fs.take k)).length, .continueReading⟩
      ∧ (∀ fr, fs[k]? = some fr →
           p.length < (frames_stream (fs.take k)).length + fr.1.length) := by
  intro fs
  induction fs with
  | nil =>
    intro rs p hlen hsync hwf hp
    have hrs : rs = [] := List.length_eq_zero.mp (by simpa using hlen)
    have hp0 : p = [] := List.prefix_nil.mp (by simpa [frames_stream] using hp)
    subst hrs
    subst hp0
    exact ⟨0, by simp, by simp [frames_stream], by simp [frames_stream]; rfl, by simp⟩
  | cons fhead ftail ih =>
    intro rs p hlen hsync hwf hp
    obtain ⟨r, rs', rfl⟩ : ∃ r rs', rs = r :: rs' := by
      cases rs with
      | nil => exact absurd hlen (by simp)
      | cons a b => exact ⟨a, b, rfl⟩
    have hwf0 : wf_cl_frame fhead.1 fhead.2.1 fhead.2.2 := hwf fhead (by simp)
    have hsync0 : r.isAsync = false := hsync r (by simp)
    have hstream : frames_stream (fhead :: ftail) = fhead.1 ++ frames_stream ftail := by
      simp [frames_stream]
    rw [hstream] at hp
    by_cases hshort : p.length < fhead.1.length
    · have hpf : p <+: fhead.1 :=
        List.prefix_of_prefix_length_le hp (fhead.1.prefix_append _) (by omega)
      have hstuck := process_stuck_prefix (r :: rs') p fhead.1 fhead.2.1 fhead.2.2
        hwf0 hpf hshort (by simp [get_first_request, hsync0])
      refine ⟨0, by simp, by simp [frames_stream], ?_, ?_⟩
      · rw [hstuck]
        simp [frames_stream]
      · intro fr hfr
        have hfr0 : fhead = fr := by simpa using hfr
        subst hfr0
        simpa [frames_stream] using hshort
    · push_neg at hshort
      have hf1p : fhead.1 <+: p :=
        List.prefix_of_prefix_length_le (fhead.1.prefix_append _) hp hshort
      obtain ⟨p₂, rfl⟩ := hf1p
      have hp₂ : p₂ <+: frames_stream ftail := (List.prefix_append_right_inj fhead.1).mp hp
      obtain ⟨k, hk_le, hk_pref, hk_eq, hk_bound⟩ := ih rs' p₂ (by simpa using hlen)
        (fun r' hr' => hsync r' (by simp [hr'])) (fun fr hfr => hwf fr (by simp [hfr])) hp₂
      have htk : frames_stream ((fhead :: ftail).take (k + 1))
          = fhead.1 ++ frames_stream (ftail.take k) := by
        simp [frames_stream]
      refine ⟨k + 1, by simpa using hk_le, ?_, ?_, ?_⟩
      · rw [htk]
        exact (List.prefix_append_right_inj fhead.1).mpr hk_pref
      · rw [process_consume rs' r fhead.1 p₂ fhead.2.1 fhead.2.2 hwf0 hsync0, hk_eq]
        have hcons : ∀ l, frames_stream (fhead :: l) = fhead.1 ++ frames_stream l :=
          fun l => by simp [frames_stream]
        simp only [List.take_succ_cons, List.drop_succ_cons, List.map_cons,
          List.zip_cons_cons, hcons, List.length_append, List.drop_append, frame_body]
      · intro fr hfr
        have hfr' : ftail[k]? = some fr := by simpa using hfr
        have hb := hk_bound fr hfr'
        rw [htk]
        simp only [List.length_append]
        omega

theorem frames_stream_append (a b : List (List Char × Nat × Nat)) :
    frames_stream (a ++ b) = frames_stream a ++ frames_stream b := by
  simp [frames_stream]

theorem runReads_inv :
    ∀ (reads : List (List Char)) (fs : List (List Char × Nat × Nat))
      (rs : List SnapdRequest) (buf : List Char),
    rs.length = fs.length →
    (∀ r ∈ rs, r.isAsync = false) →
    (∀ fr ∈ fs, wf_cl_frame fr.1 fr.2.1 fr.2.2) →
    buf ++ reads.flatten = frames_stream fs →
    (∀ fr, fs[0]? = some fr → buf.length < fr.1.length) →
    runReads rs buf reads
      = ⟨List.zip (rs.map (fun r => r.rid)) (fs.map frame_body), [], [],
          .continueReading⟩ := by
  intro reads
  induction reads with
  | nil =>
    intro fs rs buf hlen hsync hwf htotal hbound
    cases fs with
    | nil =>
      have hbuf : buf = [] := by simpa [frames_stream] using htotal
      have hrs : rs = [] := List.length_eq_zero.mp (by simpa using hlen)
      subst hbuf
      subst hrs
      rfl
    | cons f ft =>
      exfalso
      have h1 := hbound f (by simp)
      have h2 : buf.length = f.1.length + (frames_stream ft).length := by
        have hb : buf = f.1 ++ frames_stream ft := by
          simpa [frames_stream] using htotal
        rw [hb]
        simp
      omega
  | cons c rest ih =>
    intro fs rs buf hlen hsync hwf htotal hbound
    have hpref : buf ++ c <+: frames_stream fs := by
      refine ⟨rest.flatten, ?_⟩
      rw [← htotal]
      simp [List.append_assoc]
    obtain ⟨k, hk_le, hk_pref, hk_eq, hk_bound⟩ :=
      process_prefix fs rs (buf ++ c) hlen hsync hwf hpref
    have hsplit : frames_stream fs
        = frames_stream (fs.take k) ++ frames_stream (fs.drop k) := by
      rw [← frames_stream_append, List.take_append_drop]
    obtain ⟨tail0, htail0⟩ := hk_pref
    have htail0' : tail0 = (buf ++ c).drop (frames_stream (fs.take k)).length := by
      rw [← htail0]
      exact (List.drop_left _ _).symm
    have hnew_total :
        ((buf ++ c).drop (frames_stream (fs.take k)).length) ++ rest.flatten
          = frames_stream (fs.drop k) := by
      rw [← htail0']
      have h1 : frames_stream (fs.take k) ++ (tail0 ++ rest.flatten)
          = frames_stream (fs.take k) ++ frames_stream (fs.drop k) := by
        rw [← List.append_assoc, htail0, ← hsplit, ← htotal]
        simp [List.append_assoc]
      exact List.append_cancel_left h1
    have hnew_bound : ∀ fr, (fs.drop k)[0]? = some fr →
        ((buf ++ c).drop (frames_stream (fs.take k)).length).length < fr.1.length := by
      intro fr hfr
      rw [List.getElem?_drop] at hfr
      have hb := hk_bound fr (by simpa using hfr)
      obtain ⟨-, hhl', hflen', -, -⟩ := hwf fr (List.getElem?_mem (by simpa using hfr))
      simp only [List.length_drop]
      omega
    have hrec := ih (fs.drop k) (rs.drop k)
      ((buf ++ c).drop (frames_stream (fs.take k)).length)
      (by simp [hlen]) (fun r' hr' => hsync r' (List.mem_of_mem_drop hr'))
      (fun fr hfr => hwf fr (List.mem_of_mem_drop hfr)) hnew_total hnew_bound
    rw [runReads.eq_def]
    dsimp only
    rw [hk_eq]
    dsimp only
    rw [hrec]
    have hzip : List.zip ((rs.take k).map (fun r => r.rid)) ((fs.take k).map frame_body)
          ++ List.zip ((rs.drop k).map (fun r => r.rid)) ((fs.drop k).map frame_body)
        = List.zip (rs.map (fun r => r.rid)) (fs.map frame_body) := by
      rw [← List.zip_append (by simp [hlen])]
      rw [← List.map_append, ← List.map_append, List.take_append_drop,
          List.take_append_drop]
    rw [hzip]

/-- C1: a completed response frame is matched to the oldest request in
arrival order that is synchronous or async without a resolved change id
(`get_first_request` is exactly the first eligible request); and for N
synchronous requests sent before any response, the N well-formed
Content-Length response frames are matched 1:1 to the requests,
oldest-unmatched first, for every way of splitting the response byte
stream across read events. -/
theorem C1_fifo_matching :
    (∀ q : List SnapdRequest, get_first_request q = q.find? request_is_eligible)
  ∧ (∀ (fs : List (List Char × Nat × Nat)) (rs : List SnapdRequest)
        (reads : List (List Char)),
      rs.length = fs.length →
      (∀ r ∈ rs, r.isAsync = false) →
      (∀ fr ∈ fs, wf_cl_frame fr.1 fr.2.1 fr.2.2) →
      reads.flatten = frames_stream fs →
      runReads rs [] reads
        = ⟨List.zip (rs.map (fun r => r.rid)) (fs.map frame_body), [], [],
            .continueReading⟩) := by
  constructor
  · intro q
    induction q with
    | nil => rfl
    | cons r rest ih =>
      cases hA : r.isAsync with
      | false => simp [get_first_request, List.find?, request_is_eligible, hA]
      | true =>
        cases hC : r.changeId.isNone with
        | true => simp [get_first_request, List.find?, request_is_eligible, hA, hC]
        | false => simp [get_first_request, List.find?, request_is_eligible, hA, hC, ih]
  · intro fs rs reads hlen hsync hwf hflat
    refine runReads_inv reads fs rs [] hlen hsync hwf (by simpa using hflat) ?_
    intro fr hfr
    obtain ⟨-, hhl', hflen', -, -⟩ := hwf fr (List.getElem?_mem hfr)
    simp only [List.length_nil]
    omega

theorem C1_fifo_matching_witness :
    ["HTTP/1.1 200 OK\r\nContent-Length: 2\r".data,
     "\n\r\nOKHTTP/1.1 202 OK\r\nContent-Le".data,
     "ngth: 3\r\n\r\nyes".data].flatten
      = frames_stream
          [("HTTP/1.1 200 OK\r\nContent-Length: 2\r\n\r\nOK".data, 38, 2),
           ("HTTP/1.1 202 OK\r\nContent-Length: 3\r\n\r\nyes".data, 38, 3)]
  ∧ runReads [⟨0, false, none⟩, ⟨1, false, none⟩] []
        ["HTTP/1.1 200 OK\r\nContent-Length: 2\r".data,
         "\n\r\nOKHTTP/1.1 202 OK\r\nContent-Le".data,
         "ngth: 3\r\n\r\nyes".data]
      = ⟨[(0, "OK".data), (1, "yes".data)], [], [], .continueReading⟩ := by
  constructor
  · decide
  · have h := C1_fifo_matching.2
      [("HTTP/1.1 200 OK\r\nContent-Length: 2\r\n\r\nOK".data, 38, 2),
       ("HTTP/1.1 202 OK\r\nContent-Length: 3\r\n\r\nyes".data, 38, 3)]
      [⟨0, false, none⟩, ⟨1, false, none⟩]
      ["HTTP/1.1 200 OK\r\nContent-Length: 2\r".data,
       "\n\r\nOKHTTP/1.1 202 OK\r\nContent-Le".data,
       "ngth: 3\r\n\r\nyes".data]
      rfl (by decide) (by decide) (by decide)
    exact h.trans (by decide)
